import Mathlib

/-!
Shallow embedding of the particle-emission core of `bevy_particles`
(`src/components/particle_emitter/emitter_shape/mod.rs` and
`shapes/convex_mesh.rs`), together with theorems settling the frozen
claims about it.

Modelling conventions:
* `f32` scalars are modelled by exact arithmetic: the spread-index state
  machine (pure field arithmetic) over `ℚ`, the vector pipeline over `ℝ`
  (normalisation needs a square root).
* the injected `rand::Rng` is modelled as two draw streams: a stream of
  naturals for `gen_range(0..n)` (reduced mod `n`) and a stream of reals
  in `[0, 1]` scaled affinely for `gen_range(lo..=hi)`;
* Rust panics (`expect`, `panic!`, `todo!`) are modelled as `Except.error`
  with a dedicated error value per panic site;
* `&mut` state (the `EmissionSpread` running state, the rng) is passed
  explicitly and returned.
-/

namespace Particles

/-- Different emission spread loop modes (`SpreadLoopMode` in `mod.rs`). -/
inductive SpreadLoopMode where
  /-- loops back to the start at the end of each cycle -/
  | loop : SpreadLoopMode
  /-- each consecutive loop happens in the opposite direction to the last -/
  | pingPong : SpreadLoopMode
deriving DecidableEq, Repr

/-- `EmissionSpread` in `mod.rs`: spread parameters plus the running state
`current_index`/`upwards`, with `f32` modelled as `ℚ`. -/
structure EmissionSpread where
  amount : ℚ
  loop_mode : SpreadLoopMode
  uniform : Bool
  current_index : ℚ
  upwards : Bool
deriving DecidableEq, Repr

/-- `EmissionSpread::update_index` in `mod.rs`, lines 115-137: step
`current_index` by `amount` in the direction of `upwards`, computing
`previous_index` exactly as the Rust code does (undoing the step), then
apply the loop-mode wraparound and return `(previous_index, current_index)`
together with the mutated state. -/
def EmissionSpread.update_index (s : EmissionSpread) : (ℚ × ℚ) × EmissionSpread :=
  let afterStep : ℚ := if s.upwards then s.current_index + s.amount else s.current_index - s.amount
  let previous_index : ℚ := if s.upwards then afterStep - s.amount else afterStep + s.amount
  let t : EmissionSpread := { s with current_index := afterStep }
  let t' : EmissionSpread :=
    match t.loop_mode with
    | SpreadLoopMode.loop =>
        if t.current_index > 1 then { t with current_index := 1 - t.current_index } else t
    | SpreadLoopMode.pingPong =>
        if t.current_index < 0 ∨ t.current_index > 1 then
          { t with upwards := !t.upwards, current_index := previous_index }
        else t
  ((previous_index, t'.current_index), t')

/-- The state reached by one `update_index` call (discarding the returned pair). -/
def stepIndex (s : EmissionSpread) : EmissionSpread := s.update_index.2

lemma stepIndex_loop_fields (s : EmissionSpread) (h : s.loop_mode = SpreadLoopMode.loop) :
    (stepIndex s).upwards = s.upwards ∧ (stepIndex s).loop_mode = SpreadLoopMode.loop ∧
      (stepIndex s).amount = s.amount := by
  obtain ⟨a, lm, un, c, up⟩ := s
  subst h
  simp only [stepIndex, EmissionSpread.update_index]
  split <;> split <;> simp

lemma stepIndex_loop_down (s : EmissionSpread) (h : s.loop_mode = SpreadLoopMode.loop)
    (hup : s.upwards = false) (ha : 0 ≤ s.amount) (hc : s.current_index ≤ 1) :
    stepIndex s = { s with current_index := s.current_index - s.amount } := by
  obtain ⟨a, lm, un, c, up⟩ := s
  subst h hup
  simp only [stepIndex, EmissionSpread.update_index, Bool.false_eq_true, if_false]
  rw [if_neg (by simp at ha hc ⊢; linarith)]

/-- Claim C1: in `Loop` mode `update_index` steps `current_index` by `amount` in
the direction of `upwards`, returns the (pre-step, post-step) pair, and remaps a
post-step index exceeding `1` by the reflection `1 - current_index`; from
`current_index = 0, upwards = true, amount = 0.3` four calls give the
`current_index` sequence `0.3, 0.6, 0.9, -0.2`. -/
theorem update_index_loop_spec (s : EmissionSpread) (h : s.loop_mode = SpreadLoopMode.loop) :
    (let afterStep : ℚ :=
      if s.upwards then s.current_index + s.amount else s.current_index - s.amount
     let final : ℚ := if afterStep > 1 then 1 - afterStep else afterStep
     s.update_index = ((s.current_index, final), { s with current_index := final })) ∧
    (stepIndex (⟨0.3, .loop, false, 0, true⟩ : EmissionSpread)).current_index = 0.3 ∧
    (stepIndex (stepIndex ⟨0.3, .loop, false, 0, true⟩)).current_index = 0.6 ∧
    (stepIndex (stepIndex (stepIndex ⟨0.3, .loop, false, 0, true⟩))).current_index = 0.9 ∧
    (stepIndex (stepIndex (stepIndex (stepIndex ⟨0.3, .loop, false, 0, true⟩)))).current_index
      = -0.2 := by
  refine ⟨?_, by norm_num [stepIndex, EmissionSpread.update_index],
    by norm_num [stepIndex, EmissionSpread.update_index],
    by norm_num [stepIndex, EmissionSpread.update_index],
    by norm_num [stepIndex, EmissionSpread.update_index]⟩
  obtain ⟨a, lm, un, c, up⟩ := s
  subst h
  simp only [EmissionSpread.update_index]
  cases up <;> simp <;> split <;> simp [Prod.ext_iff, EmissionSpread.mk.injEq]

/-- Witness for C1: the fourth call from `0, upwards, amount = 0.3` in `Loop`
mode yields `current_index = -0.2`. -/
theorem update_index_loop_spec_witness :
    (stepIndex (stepIndex (stepIndex (stepIndex
      (⟨0.3, .loop, false, 0, true⟩ : EmissionSpread))))).current_index = -0.2 :=
  (update_index_loop_spec ⟨0.3, .loop, false, 0, true⟩ rfl).2.2.2.2

/-- Claim C2: in `PingPong` mode, when the stepped index leaves `[0, 1]`,
`update_index` flips `upwards`, rolls `current_index` back to the pre-step value
and returns that value in both components; in particular from
`current_index = 0.9, upwards = true, amount = 0.3` one call leaves
`current_index = 0.9` and flips `upwards` to `false`. -/
theorem update_index_pingpong_out_of_range (s : EmissionSpread)
    (h : s.loop_mode = SpreadLoopMode.pingPong)
    (hout : (if s.upwards then s.current_index + s.amount else s.current_index - s.amount) < 0 ∨
      (if s.upwards then s.current_index + s.amount else s.current_index - s.amount) > 1) :
    s.update_index = ((s.current_index, s.current_index), { s with upwards := !s.upwards }) ∧
    (⟨0.3, .pingPong, false, 0.9, true⟩ : EmissionSpread).update_index
      = ((0.9, 0.9), ⟨0.3, .pingPong, false, 0.9, false⟩) := by
  refine ⟨?_, by norm_num [EmissionSpread.update_index]⟩
  obtain ⟨a, lm, un, c, up⟩ := s
  subst h
  simp only [EmissionSpread.update_index]
  cases up <;>
    simp only [Bool.false_eq_true, Bool.true_eq_false, if_false, if_true] at hout ⊢ <;>
    rw [if_pos hout] <;> simp [Prod.ext_iff, EmissionSpread.mk.injEq]

/-- Witness for C2: the concrete ping-pong reversal at `0.9, upwards, 0.3`. -/
theorem update_index_pingpong_out_of_range_witness :
    (⟨0.3, .pingPong, false, 0.9, true⟩ : EmissionSpread).update_index
      = ((0.9, 0.9), ⟨0.3, .pingPong, false, 0.9, false⟩) :=
  (update_index_pingpong_out_of_range ⟨0.3, .pingPong, false, 0.9, true⟩ rfl
    (by norm_num)).2

/-- Claim C10: in `Loop` mode `update_index` never modifies `upwards`, for every
starting state; and a state with `upwards = false` (with `amount` and
`current_index` in their documented ranges) decrements `current_index` by
`amount` on every call with no lower-bound handling, so after `n` calls
`current_index = current_index₀ - n · amount`, decreasing below `0` without ever
being remapped. -/
theorem update_index_loop_never_flips (s : EmissionSpread)
    (h : s.loop_mode = SpreadLoopMode.loop) :
    (∀ n : ℕ, (stepIndex^[n] s).upwards = s.upwards) ∧
    (s.upwards = false → 0 ≤ s.amount → s.current_index ≤ 1 →
      ∀ n : ℕ, (stepIndex^[n] s).current_index = s.current_index - n * s.amount) := by
  constructor
  · have key : ∀ n : ℕ, (stepIndex^[n] s).upwards = s.upwards ∧
        (stepIndex^[n] s).loop_mode = SpreadLoopMode.loop := by
      intro n
      induction n with
      | zero => exact ⟨rfl, h⟩
      | succ n ih =>
        rw [Function.iterate_succ_apply']
        obtain ⟨h1, h2, -⟩ := stepIndex_loop_fields _ ih.2
        exact ⟨h1.trans ih.1, h2⟩
    exact fun n => (key n).1
  · intro hup ha hc n
    have key : ∀ n : ℕ,
        stepIndex^[n] s = { s with current_index := s.current_index - n * s.amount } := by
      intro n
      induction n with
      | zero => simp
      | succ n ih =>
        have hmul : 0 ≤ (n : ℚ) * s.amount := mul_nonneg (by positivity) ha
        rw [Function.iterate_succ_apply', ih,
          stepIndex_loop_down _ (by simpa using h) (by simpa using hup) (by simpa using ha)
            (by simp only []; linarith)]
        simp only [EmissionSpread.mk.injEq, true_and, and_true]
        push_cast
        ring
    rw [key n]

/-- Witness for C10: four downward `Loop`-mode calls from `0` with
`amount = 0.3` reach `current_index = -1.2`, below zero and unremapped, with
`upwards` still `false`. -/
theorem update_index_loop_never_flips_witness :
    (stepIndex^[4] (⟨0.3, .loop, false, 0, false⟩ : EmissionSpread)).current_index = -1.2 ∧
    (stepIndex^[4] (⟨0.3, .loop, false, 0, false⟩ : EmissionSpread)).upwards = false := by
  have h := update_index_loop_never_flips ⟨0.3, .loop, false, 0, false⟩ rfl
  refine ⟨?_, h.1 4⟩
  rw [h.2 rfl (by norm_num) (by norm_num) 4]
  norm_num

/-- `bevy::prelude::Vec3` (glam), with `f32` components modelled as `ℝ`. -/
structure Vec3 where
  x : ℝ
  y : ℝ
  z : ℝ

/-- `Vec3::Y`, the unit `+Y` axis. -/
def Vec3.yAxis : Vec3 := ⟨0, 1, 0⟩

/-- `Vec3::ZERO` / `Vec3::default()`, the origin. -/
def Vec3.zero : Vec3 := ⟨0, 0, 0⟩

/-- Componentwise vector addition (`Vec3 + Vec3`). -/
def Vec3.add (a b : Vec3) : Vec3 := ⟨a.x + b.x, a.y + b.y, a.z + b.z⟩

/-- Componentwise vector subtraction (`Vec3 - Vec3`). -/
def Vec3.sub (a b : Vec3) : Vec3 := ⟨a.x - b.x, a.y - b.y, a.z - b.z⟩

/-- Scalar multiplication (`Vec3 * f32`). -/
def Vec3.scale (a : Vec3) (c : ℝ) : Vec3 := ⟨a.x * c, a.y * c, a.z * c⟩

/-- `Vec3::length_squared`, the dot product of a vector with itself. -/
def Vec3.lengthSquared (a : Vec3) : ℝ := a.x * a.x + a.y * a.y + a.z * a.z

noncomputable section

/-- `Vec3::length`. -/
def Vec3.length (a : Vec3) : ℝ := Real.sqrt a.lengthSquared

/-- `Vec3::try_normalize`: `Some(self * (1 / length))` when the reciprocal of
the length is finite and positive — in exact real arithmetic, when the squared
length is nonzero — and `None` otherwise. -/
def Vec3.tryNormalize (a : Vec3) : Option Vec3 :=
  if 0 < a.lengthSquared then some (a.scale a.length⁻¹) else none

end

/-- The injected `rand::Rng`, modelled as two streams of pre-drawn values: a
stream of naturals backing `gen_range(0..n)` and a stream of reals in `[0, 1]`
backing `gen_range(lo..=hi)`. An exhausted stream keeps yielding `0`. -/
structure Rng where
  natDraws : List ℕ
  realDraws : List ℝ

/-- `rng.gen_range(0..n)`: the next natural draw, reduced into `[0, n)`. -/
def Rng.genNat (rng : Rng) (n : ℕ) : ℕ × Rng :=
  (rng.natDraws.headD 0 % n, { rng with natDraws := rng.natDraws.tail })

/-- `rng.gen_range(lo..=hi)` on `f32`: the next real draw `u ∈ [0, 1]` mapped
affinely onto `[lo, hi]`. -/
noncomputable def Rng.genReal (rng : Rng) (lo hi : ℝ) : ℝ × Rng :=
  (lo + rng.realDraws.headD 0 * (hi - lo), { rng with realDraws := rng.realDraws.tail })

/-- `bevy`'s `VertexAttributeValues`, restricted to what the embedded code
inspects: either a `Float32x3` buffer or a buffer of some other format (only
its length matters). -/
inductive VertexAttributeValues where
  | float32x3 (values : List Vec3)
  | otherFormat (len : ℕ)

/-- `bevy`'s `Mesh`, restricted to its `ATTRIBUTE_POSITION` attribute — the
only attribute the embedded code reads. -/
structure Mesh where
  positions : Option VertexAttributeValues

/-- `Mesh::count_vertices`: the length of the attribute buffers (`0` when no
attribute is set). -/
def Mesh.count_vertices (m : Mesh) : ℕ :=
  match m.positions with
  | none => 0
  | some (.float32x3 values) => values.length
  | some (.otherFormat len) => len

/-- `ConvexMesh` in `shapes/convex_mesh.rs`. -/
structure ConvexMesh where
  mesh : Mesh
  nominal_center : Vec3

/-- `EmitterDirectionMode` in `mod.rs`. -/
inductive EmitterDirectionMode where
  /-- default, the direction is taken from the shape -/
  | automatic : EmitterDirectionMode
  /-- all particles will have a fixed direction -/
  | fixed (dir : Vec3) : EmitterDirectionMode

/-- `EmittedParticle` in `mod.rs`. -/
structure EmittedParticle where
  position : Vec3
  direction : Vec3

/-- `EmittedParticle::default()`: position at the origin, direction `+Y`. -/
def EmittedParticle.default : EmittedParticle := ⟨Vec3.zero, Vec3.yAxis⟩

/-- The panic sites of the embedded code, modelled as error values:
`expect("No vertex positions set for ConvexMesh")`, `panic!("Expected a mesh
with Float32x3 positions")` and the `todo!()` in `ConvexMesh::spread_particle`. -/
inductive EmitError where
  | missingPositions : EmitError
  | badFormat : EmitError
  | notImplemented : EmitError
deriving DecidableEq, Repr

/-- `ConvexMesh::emit_random_particle` in `shapes/convex_mesh.rs`, lines 19-47:
an empty mesh yields the default particle; otherwise a vertex is drawn from the
`Float32x3` position buffer, scaled by a coefficient drawn from
`[1 - thickness, 1]`, and the direction is the normalised vector from
`nominal_center` to the unscaled vertex (`+Y` fallback) in `Automatic` mode, or
the fixed vector in `Fixed` mode. -/
noncomputable def ConvexMesh.emit_random_particle (m : ConvexMesh) (rng : Rng)
    (thickness : ℝ) (direction_mode : EmitterDirectionMode) :
    Except EmitError (EmittedParticle × Rng) :=
  if m.mesh.count_vertices = 0 then .ok (EmittedParticle.default, rng) else
  match m.mesh.positions with
  | none => .error .missingPositions
  | some (.otherFormat _) => .error .badFormat
  | some (.float32x3 positions) =>
      let (i, rng) := rng.genNat positions.length
      let position : Vec3 := positions.getD i Vec3.zero
      let (coef, rng) := rng.genReal (1 - thickness) 1
      .ok ({ position := position.scale coef,
             direction :=
               match direction_mode with
               | .automatic => ((position.sub m.nominal_center).tryNormalize).getD Vec3.yAxis
               | .fixed dir => dir }, rng)

/-- `EmissionSpread` is reused unchanged by the spread path; its scalar type
(ℚ above) plays no role here because `ConvexMesh::spread_particle` is
unimplemented. -/
noncomputable def ConvexMesh.spread_particle (_ : ConvexMesh) (_ : EmissionSpread) (_ : Rng)
    (_ : ℝ) (_ : EmitterDirectionMode) :
    Except EmitError (EmittedParticle × EmissionSpread × Rng) :=
  .error .notImplemented

/-- `EmissionMode` in `mod.rs`. -/
inductive EmissionMode where
  | random : EmissionMode
  | spread (s : EmissionSpread) : EmissionMode

/-- `EmitterDirectionParams` in `mod.rs`. -/
structure EmitterDirectionParams where
  base_mode : EmitterDirectionMode
  randomize_direction : ℝ
  spherize_direction : ℝ

/-- `crate::Shape`, the closed enum of emitter shapes (declared in
`shape_enum.rs`, which is not part of the provided sources); `ConvexMesh` is
the one variant whose code is provided, and the one the claims are about. -/
inductive Shape where
  | convexMesh (m : ConvexMesh) : Shape

/-- Dispatch of `Emitter::emit_random_particle` over the shape enum. -/
noncomputable def Shape.emit_random_particle : Shape → Rng → ℝ → EmitterDirectionMode →
    Except EmitError (EmittedParticle × Rng)
  | .convexMesh m, rng, thickness, mode => m.emit_random_particle rng thickness mode

/-- Dispatch of `Emitter::spread_particle` over the shape enum. -/
noncomputable def Shape.spread_particle : Shape → EmissionSpread → Rng → ℝ →
    EmitterDirectionMode → Except EmitError (EmittedParticle × EmissionSpread × Rng)
  | .convexMesh m, s, rng, thickness, mode => m.spread_particle s rng thickness mode

/-- `EmitterShape` in `mod.rs`. -/
structure EmitterShape where
  shape : Shape
  thickness : ℝ
  direction_params : EmitterDirectionParams
  mode : EmissionMode

/-- The sampler dispatch at the top of `EmitterShape::emit_particle` (lines
142-154): `Random` mode calls the shape's random path, `Spread` mode its
spread path, and the (possibly mutated) emitter state is returned. -/
noncomputable def EmitterShape.sampleParticle (e : EmitterShape) (rng : Rng) :
    Except EmitError (EmittedParticle × EmitterShape × Rng) :=
  match e.mode with
  | .random =>
      match e.shape.emit_random_particle rng e.thickness e.direction_params.base_mode with
      | .error err => .error err
      | .ok (p, rng') => .ok (p, e, rng')
  | .spread s =>
      match e.shape.spread_particle s rng e.thickness e.direction_params.base_mode with
      | .error err => .error err
      | .ok (p, s', rng') => .ok (p, { e with mode := .spread s' }, rng')

/-- The first composer pass of `EmitterShape::emit_particle` (lines 155-167):
when `randomize_direction > 0`, draw three components uniformly in `[-1, 1]`,
normalise the drawn vector (`+Y` fallback) and blend it into the particle's
direction, renormalising (`+Y` fallback). -/
noncomputable def applyRandomizePass (params : EmitterDirectionParams)
    (p : EmittedParticle) (rng : Rng) : EmittedParticle × Rng :=
  if params.randomize_direction > 0 then
    let (rx, rng) := rng.genReal (-1) 1
    let (ry, rng) := rng.genReal (-1) 1
    let (rz, rng) := rng.genReal (-1) 1
    let random_direction : Vec3 := ((Vec3.mk rx ry rz).tryNormalize).getD Vec3.yAxis
    ({ p with direction :=
        (((random_direction.scale params.randomize_direction).add
          (p.direction.scale (1 - params.randomize_direction))).tryNormalize).getD Vec3.yAxis },
     rng)
  else (p, rng)

/-- The second composer pass of `EmitterShape::emit_particle` (lines 168-173):
when `spherize_direction > 0`, blend the particle's position into its
direction and renormalise (`+Y` fallback). This pass draws nothing from the
rng. -/
noncomputable def applySpherizePass (params : EmitterDirectionParams)
    (p : EmittedParticle) : EmittedParticle :=
  if params.spherize_direction > 0 then
    { p with direction :=
        (((p.position.scale params.spherize_direction).add
          (p.direction.scale (1 - params.spherize_direction))).tryNormalize).getD Vec3.yAxis }
  else p

/-- `EmitterShape::emit_particle` in `mod.rs`, lines 141-175: sample a particle
from the shape according to the emission mode, then apply the randomization
pass and then the spherization pass to its direction. -/
noncomputable def EmitterShape.emit_particle (e : EmitterShape) (rng : Rng) :
    Except EmitError (EmittedParticle × EmitterShape × Rng) :=
  match e.sampleParticle rng with
  | .error err => .error err
  | .ok (p, e', rng') =>
      let (p1, rng1) := applyRandomizePass e.direction_params p rng'
      .ok (applySpherizePass e.direction_params p1, e', rng1)

lemma Vec3.lengthSquared_nonneg (a : Vec3) : 0 ≤ a.lengthSquared := by
  unfold Vec3.lengthSquared
  nlinarith [sq_nonneg a.x, sq_nonneg a.y, sq_nonneg a.z]

lemma Vec3.lengthSquared_scale (a : Vec3) (c : ℝ) :
    (a.scale c).lengthSquared = c * c * a.lengthSquared := by
  simp only [Vec3.scale, Vec3.lengthSquared]
  ring

lemma Vec3.yAxis_lengthSquared : Vec3.yAxis.lengthSquared = 1 := by
  simp [Vec3.yAxis, Vec3.lengthSquared]

lemma Vec3.tryNormalize_unit {a u : Vec3} (h : a.tryNormalize = some u) :
    u.lengthSquared = 1 := by
  unfold Vec3.tryNormalize at h
  split at h
  · rename_i hpos
    obtain rfl : a.scale a.length⁻¹ = u := by simpa using h
    rw [Vec3.lengthSquared_scale, Vec3.length, ← Real.sqrt_inv,
      Real.mul_self_sqrt (by positivity), inv_mul_cancel₀ (ne_of_gt hpos)]
  · exact absurd h (by simp)

lemma Vec3.getD_tryNormalize_unit (a : Vec3) :
    ((a.tryNormalize).getD Vec3.yAxis).lengthSquared = 1 := by
  cases h : a.tryNormalize with
  | none => simp [Vec3.yAxis_lengthSquared]
  | some u => simpa using Vec3.tryNormalize_unit h

lemma applyRandomizePass_skip (params : EmitterDirectionParams) (p : EmittedParticle)
    (rng : Rng) (h : ¬ params.randomize_direction > 0) :
    applyRandomizePass params p rng = (p, rng) := by
  simp [applyRandomizePass, h]

lemma applyRandomizePass_position (params : EmitterDirectionParams) (p : EmittedParticle)
    (rng : Rng) : (applyRandomizePass params p rng).1.position = p.position := by
  unfold applyRandomizePass
  split <;> simp

lemma applyRandomizePass_unit (params : EmitterDirectionParams) (p : EmittedParticle)
    (rng : Rng) (h : params.randomize_direction > 0) :
    (applyRandomizePass params p rng).1.direction.lengthSquared = 1 := by
  simp [applyRandomizePass, h, Vec3.getD_tryNormalize_unit]

lemma applySpherizePass_skip (params : EmitterDirectionParams) (p : EmittedParticle)
    (h : ¬ params.spherize_direction > 0) : applySpherizePass params p = p := by
  simp [applySpherizePass, h]

lemma applySpherizePass_position (params : EmitterDirectionParams) (p : EmittedParticle) :
    (applySpherizePass params p).position = p.position := by
  unfold applySpherizePass
  split <;> simp

lemma applySpherizePass_unit (params : EmitterDirectionParams) (p : EmittedParticle)
    (h : params.spherize_direction > 0) :
    (applySpherizePass params p).direction.lengthSquared = 1 := by
  simp [applySpherizePass, h, Vec3.getD_tryNormalize_unit]

/-- Claim C5: `ConvexMesh::spread_particle` fails with the explicit
"not implemented" failure for every input, and never returns a sample. -/
theorem spread_particle_not_implemented (m : ConvexMesh) (spread : EmissionSpread)
    (rng : Rng) (thickness : ℝ) (direction_mode : EmitterDirectionMode) :
    m.spread_particle spread rng thickness direction_mode = .error .notImplemented ∧
    ∀ result, m.spread_particle spread rng thickness direction_mode ≠ .ok result :=
  ⟨rfl, fun _ => by simp [ConvexMesh.spread_particle]⟩

/-- Claim C8: with both composer ratios zero, `emit_particle` returns the shape
sampler's result unchanged — same particle, same emitter state and same rng
state, so the composer consumes no random draws. -/
theorem emit_particle_composer_noop (e : EmitterShape) (rng : Rng)
    (hr : e.direction_params.randomize_direction = 0)
    (hs : e.direction_params.spherize_direction = 0) :
    e.emit_particle rng = e.sampleParticle rng := by
  unfold EmitterShape.emit_particle
  cases h : e.sampleParticle rng with
  | error err => rfl
  | ok v =>
    obtain ⟨p, e', rng'⟩ := v
    simp only [applyRandomizePass_skip _ _ _ (by rw [hr]; exact lt_irrefl 0),
      applySpherizePass_skip _ _ (by rw [hs]; exact lt_irrefl 0)]

/-- Witness for C8 at a concrete one-vertex emitter and concrete draws. -/
theorem emit_particle_composer_noop_witness :
    EmitterShape.emit_particle
        ⟨.convexMesh ⟨⟨some (.float32x3 [⟨1, 0, 0⟩])⟩, Vec3.zero⟩, 1,
          ⟨.automatic, 0, 0⟩, .random⟩ ⟨[0], [1]⟩
      = EmitterShape.sampleParticle
        ⟨.convexMesh ⟨⟨some (.float32x3 [⟨1, 0, 0⟩])⟩, Vec3.zero⟩, 1,
          ⟨.automatic, 0, 0⟩, .random⟩ ⟨[0], [1]⟩ :=
  emit_particle_composer_noop _ _ rfl rfl

/-- Claim C7: `emit_particle` applies the randomization pass first and the
spherization pass second to the sampled particle, and the spherization pass
computes `normalize(position * spherize + direction * (1 - spherize))` (with
`+Y` fallback) from the output of the randomization pass. -/
theorem emit_particle_pass_order (e : EmitterShape) (rng : Rng) (p : EmittedParticle)
    (e' : EmitterShape) (rng' : Rng)
    (hs : e.sampleParticle rng = .ok (p, e', rng')) :
    e.emit_particle rng =
      .ok (applySpherizePass e.direction_params (applyRandomizePass e.direction_params p rng').1,
        e', (applyRandomizePass e.direction_params p rng').2) ∧
    (e.direction_params.spherize_direction > 0 →
      (applySpherizePass e.direction_params
          (applyRandomizePass e.direction_params p rng').1).direction =
        ((((applyRandomizePass e.direction_params p rng').1.position.scale
            e.direction_params.spherize_direction).add
          ((applyRandomizePass e.direction_params p rng').1.direction.scale
            (1 - e.direction_params.spherize_direction))).tryNormalize).getD Vec3.yAxis) := by
  constructor
  · unfold EmitterShape.emit_particle
    rw [hs]
  · intro hpos
    unfold applySpherizePass
    rw [if_pos hpos]

lemma emit_random_particle_automatic_unit (m : ConvexMesh) (rng : Rng) (t : ℝ)
    (p : EmittedParticle) (rng' : Rng)
    (h : m.emit_random_particle rng t .automatic = .ok (p, rng')) :
    p.direction.lengthSquared = 1 := by
  unfold ConvexMesh.emit_random_particle at h
  split at h
  · simp only [Except.ok.injEq, Prod.mk.injEq] at h
    obtain ⟨h1, -⟩ := h
    rw [← h1]
    simp [EmittedParticle.default, Vec3.yAxis_lengthSquared]
  · split at h
    · exact absurd h (by simp)
    · exact absurd h (by simp)
    · simp only [Except.ok.injEq, Prod.mk.injEq] at h
      obtain ⟨h1, -⟩ := h
      rw [← h1]
      exact Vec3.getD_tryNormalize_unit _

lemma sampleParticle_automatic_unit (e : EmitterShape) (rng : Rng) (p : EmittedParticle)
    (e' : EmitterShape) (rng' : Rng)
    (hmode : e.direction_params.base_mode = .automatic)
    (h : e.sampleParticle rng = .ok (p, e', rng')) :
    p.direction.lengthSquared = 1 := by
  unfold EmitterShape.sampleParticle at h
  split at h
  · split at h
    · exact absurd h (by simp)
    · rename_i p0 rng0 heq
      simp only [Except.ok.injEq, Prod.mk.injEq] at h
      obtain ⟨h1, -, -⟩ := h
      cases hsh : e.shape with
      | convexMesh cm =>
        rw [hsh, hmode] at heq
        rw [← h1]
        exact emit_random_particle_automatic_unit cm rng e.thickness p0 rng0 heq
  · cases hsh : e.shape with
    | convexMesh cm =>
      rw [hsh] at h
      simp [Shape.spread_particle, ConvexMesh.spread_particle] at h

/-- Counterexample to C4 as stated: with `base_mode = Fixed((2, 0, 0))` and both
composer ratios `0`, `emit_particle` succeeds and returns a direction of squared
length `4`, not a unit vector. -/
theorem emit_particle_direction_unit_counterexample :
    (EmitterShape.emit_particle
        ⟨.convexMesh ⟨⟨some (.float32x3 [⟨1, 0, 0⟩])⟩, Vec3.zero⟩, 1,
          ⟨.fixed ⟨2, 0, 0⟩, 0, 0⟩, .random⟩ ⟨[0], [1]⟩).map
      (fun r => r.1.direction.lengthSquared) = .ok 4 ∧ (4 : ℝ) ≠ 1 := by
  constructor
  · simp [EmitterShape.emit_particle, EmitterShape.sampleParticle, Shape.emit_random_particle,
      ConvexMesh.emit_random_particle, Mesh.count_vertices, Rng.genNat, Rng.genReal,
      applyRandomizePass, applySpherizePass, Vec3.lengthSquared, Except.map]
    norm_num
  · norm_num

/-- Claim C4 as amended: the direction of every particle successfully returned
by `emit_particle` has squared length exactly `1` whenever `base_mode` is
`Automatic` or at least one composer pass runs; the one exception forced by the
counterexample is a `Fixed` direction with both composer ratios zero, which is
passed through unmodified. -/
theorem emit_particle_direction_unit (e : EmitterShape) (rng : Rng) (p : EmittedParticle)
    (e' : EmitterShape) (rng' : Rng)
    (hcase : e.direction_params.base_mode = .automatic ∨
      e.direction_params.randomize_direction > 0 ∨ e.direction_params.spherize_direction > 0)
    (h : e.emit_particle rng = .ok (p, e', rng')) :
    p.direction.lengthSquared = 1 := by
  unfold EmitterShape.emit_particle at h
  cases hsample : e.sampleParticle rng with
  | error err => rw [hsample] at h; exact absurd h (by simp)
  | ok v =>
    obtain ⟨p0, e0, rng0⟩ := v
    rw [hsample] at h
    simp only [Except.ok.injEq, Prod.mk.injEq] at h
    obtain ⟨h1, -, -⟩ := h
    rw [← h1]
    by_cases hsph : e.direction_params.spherize_direction > 0
    · exact applySpherizePass_unit _ _ hsph
    · rw [applySpherizePass_skip _ _ hsph]
      by_cases hrand : e.direction_params.randomize_direction > 0
      · exact applyRandomizePass_unit _ _ _ hrand
      · rw [applyRandomizePass_skip _ _ _ hrand]
        rcases hcase with hmode | hr | hs
        · exact sampleParticle_automatic_unit e rng p0 e0 rng0 hmode hsample
        · exact absurd hr hrand
        · exact absurd hs hsph

/-- Witness for the amended C4: a concrete `Automatic`-mode emission whose
direction is the unit vector `(1, 0, 0)`. -/
theorem emit_particle_direction_unit_witness :
    (⟨⟨1, 0, 0⟩, ⟨1, 0, 0⟩⟩ : EmittedParticle).direction.lengthSquared = 1 :=
  emit_particle_direction_unit
    ⟨.convexMesh ⟨⟨some (.float32x3 [⟨1, 0, 0⟩])⟩, Vec3.zero⟩, 1, ⟨.automatic, 0, 0⟩, .random⟩
    ⟨[0], [1]⟩ ⟨⟨1, 0, 0⟩, ⟨1, 0, 0⟩⟩
    ⟨.convexMesh ⟨⟨some (.float32x3 [⟨1, 0, 0⟩])⟩, Vec3.zero⟩, 1, ⟨.automatic, 0, 0⟩, .random⟩
    ⟨[], []⟩ (Or.inl rfl)
    (by simp [EmitterShape.emit_particle, EmitterShape.sampleParticle, Shape.emit_random_particle,
      ConvexMesh.emit_random_particle, Mesh.count_vertices, Rng.genNat, Rng.genReal,
      applyRandomizePass, applySpherizePass, Vec3.tryNormalize, Vec3.lengthSquared, Vec3.sub,
      Vec3.scale, Vec3.zero, Vec3.length, EmittedParticle.default, Real.sqrt_one,
      EmittedParticle.mk.injEq, Vec3.mk.injEq])

/-- Witness for C7 at a concrete emitter (empty mesh, `spherize_direction = 0.5`)
whose sampler call succeeds. -/
theorem emit_particle_pass_order_witness :
    EmitterShape.emit_particle
        ⟨.convexMesh ⟨⟨some (.float32x3 [])⟩, Vec3.zero⟩, 1,
          ⟨.automatic, 0, 0.5⟩, .random⟩ ⟨[], []⟩ =
      .ok (applySpherizePass (⟨.automatic, 0, 0.5⟩ : EmitterDirectionParams)
          (applyRandomizePass ⟨.automatic, 0, 0.5⟩ EmittedParticle.default ⟨[], []⟩).1,
        ⟨.convexMesh ⟨⟨some (.float32x3 [])⟩, Vec3.zero⟩, 1, ⟨.automatic, 0, 0.5⟩, .random⟩,
        (applyRandomizePass ⟨.automatic, 0, 0.5⟩ EmittedParticle.default ⟨[], []⟩).2) ∧
    ((0.5 : ℝ) > 0 →
      (applySpherizePass (⟨.automatic, 0, 0.5⟩ : EmitterDirectionParams)
          (applyRandomizePass ⟨.automatic, 0, 0.5⟩ EmittedParticle.default ⟨[], []⟩).1).direction =
        ((((applyRandomizePass ⟨.automatic, 0, 0.5⟩ EmittedParticle.default
              ⟨[], []⟩).1.position.scale (0.5 : ℝ)).add
          ((applyRandomizePass ⟨.automatic, 0, 0.5⟩ EmittedParticle.default
              ⟨[], []⟩).1.direction.scale (1 - (0.5 : ℝ)))).tryNormalize).getD Vec3.yAxis) :=
  emit_particle_pass_order
    ⟨.convexMesh ⟨⟨some (.float32x3 [])⟩, Vec3.zero⟩, 1, ⟨.automatic, 0, 0.5⟩, .random⟩
    ⟨[], []⟩ EmittedParticle.default _ ⟨[], []⟩ rfl

lemma applySpherizePass_default (params : EmitterDirectionParams)
    (hs : params.spherize_direction ≤ 1) :
    applySpherizePass params EmittedParticle.default = EmittedParticle.default := by
  unfold applySpherizePass
  split
  case isTrue hpos =>
    have hblend : (Vec3.zero.scale params.spherize_direction).add
        (Vec3.yAxis.scale (1 - params.spherize_direction))
        = ⟨0, 1 - params.spherize_direction, 0⟩ := by
      simp [Vec3.zero, Vec3.yAxis, Vec3.scale, Vec3.add]
    rw [show EmittedParticle.default = ⟨Vec3.zero, Vec3.yAxis⟩ from rfl]
    simp only [EmittedParticle.mk.injEq, true_and]
    rw [hblend]
    rcases eq_or_lt_of_le hs with heq | hlt
    · rw [← heq]
      norm_num [Vec3.tryNormalize, Vec3.lengthSquared]
    · have h1s : 0 < 1 - params.spherize_direction := by linarith
      unfold Vec3.tryNormalize
      rw [if_pos (by simp only [Vec3.lengthSquared]; nlinarith)]
      simp only [Option.getD_some]
      unfold Vec3.length
      rw [show Vec3.lengthSquared ⟨0, 1 - params.spherize_direction, 0⟩
          = (1 - params.spherize_direction) * (1 - params.spherize_direction) by
        simp [Vec3.lengthSquared]]
      rw [Real.sqrt_mul_self (le_of_lt h1s)]
      simp [Vec3.scale, Vec3.yAxis, Vec3.mk.injEq, mul_inv_cancel₀ (ne_of_gt h1s)]
  case isFalse => rfl

/-- Counterexample to C3 as stated: on a zero-vertex mesh with
`randomize_direction = 1` and draws `[1, 1/2, 1/2]`, `emit_particle` returns
position at the origin but direction `(1, 0, 0)`, not `+Y` — the composer's
randomization pass also runs on the empty-mesh default particle. -/
theorem emit_particle_empty_mesh_counterexample :
    EmitterShape.emit_particle
        ⟨.convexMesh ⟨⟨some (.float32x3 [])⟩, Vec3.zero⟩, 1,
          ⟨.automatic, 1, 0⟩, .random⟩ ⟨[], [1, 1/2, 1/2]⟩
      = .ok (⟨Vec3.zero, ⟨1, 0, 0⟩⟩,
          ⟨.convexMesh ⟨⟨some (.float32x3 [])⟩, Vec3.zero⟩, 1, ⟨.automatic, 1, 0⟩, .random⟩,
          ⟨[], []⟩) ∧ (⟨1, 0, 0⟩ : Vec3) ≠ Vec3.yAxis := by
  constructor
  · simp [EmitterShape.emit_particle, EmitterShape.sampleParticle, Shape.emit_random_particle,
      ConvexMesh.emit_random_particle, Mesh.count_vertices, Rng.genNat, Rng.genReal,
      applyRandomizePass, applySpherizePass, Vec3.tryNormalize, Vec3.lengthSquared, Vec3.add,
      Vec3.scale, Vec3.zero, Vec3.yAxis, Vec3.length, EmittedParticle.default, Real.sqrt_one,
      EmittedParticle.mk.injEq, Vec3.mk.injEq]
    norm_num
  · simp [Vec3.yAxis, Vec3.mk.injEq]

/-- Claim C3 as amended: on a `Random`-mode emitter whose mesh has zero
vertices, `emit_particle` always succeeds with position exactly at the origin,
and returns exactly the default particle `{origin, +Y}` (with the rng
untouched) whenever `randomize_direction = 0` and `spherize_direction ≤ 1`; the
counterexample shows the direction can differ once `randomize_direction > 0`. -/
theorem emit_particle_empty_mesh (cm : ConvexMesh) (t r s : ℝ) (bm : EmitterDirectionMode)
    (rng : Rng) (h0 : cm.mesh.count_vertices = 0) :
    (∃ p rng', EmitterShape.emit_particle ⟨.convexMesh cm, t, ⟨bm, r, s⟩, .random⟩ rng
        = .ok (p, ⟨.convexMesh cm, t, ⟨bm, r, s⟩, .random⟩, rng') ∧ p.position = Vec3.zero) ∧
    (r = 0 → s ≤ 1 →
      EmitterShape.emit_particle ⟨.convexMesh cm, t, ⟨bm, r, s⟩, .random⟩ rng
        = .ok (EmittedParticle.default, ⟨.convexMesh cm, t, ⟨bm, r, s⟩, .random⟩, rng)) := by
  have hsample : EmitterShape.sampleParticle ⟨.convexMesh cm, t, ⟨bm, r, s⟩, .random⟩ rng
      = .ok (EmittedParticle.default, ⟨.convexMesh cm, t, ⟨bm, r, s⟩, .random⟩, rng) := by
    unfold EmitterShape.sampleParticle Shape.emit_random_particle
      ConvexMesh.emit_random_particle
    simp [h0]
  constructor
  · refine ⟨applySpherizePass ⟨bm, r, s⟩
      (applyRandomizePass ⟨bm, r, s⟩ EmittedParticle.default rng).1,
      (applyRandomizePass ⟨bm, r, s⟩ EmittedParticle.default rng).2, ?_, ?_⟩
    · unfold EmitterShape.emit_particle
      rw [hsample]
    · rw [applySpherizePass_position, applyRandomizePass_position]
      rfl
  · intro hr hs1
    unfold EmitterShape.emit_particle
    rw [hsample]
    simp only [applyRandomizePass_skip ⟨bm, r, s⟩ _ _
        (by show ¬ r > 0; rw [hr]; exact lt_irrefl 0),
      applySpherizePass_default ⟨bm, r, s⟩ (show s ≤ 1 from hs1)]

/-- Witness for the amended C3: a concrete zero-vertex emitter with
`randomize_direction = 0`, `spherize_direction = 0.5` and a nonempty rng emits
exactly the default particle and leaves the rng untouched. -/
theorem emit_particle_empty_mesh_witness :
    EmitterShape.emit_particle
        ⟨.convexMesh ⟨⟨some (.float32x3 [])⟩, Vec3.zero⟩, 1, ⟨.automatic, 0, 0.5⟩, .random⟩
        ⟨[5], [0.7]⟩
      = .ok (EmittedParticle.default,
          ⟨.convexMesh ⟨⟨some (.float32x3 [])⟩, Vec3.zero⟩, 1, ⟨.automatic, 0, 0.5⟩, .random⟩,
          ⟨[5], [0.7]⟩) :=
  (emit_particle_empty_mesh ⟨⟨some (.float32x3 [])⟩, Vec3.zero⟩ 1 0 0.5 .automatic
    ⟨[5], [0.7]⟩ rfl).2 rfl (by norm_num)

/-- Claim C6: on a nonempty `Float32x3` buffer, `emit_random_particle` returns
the drawn vertex (index within the buffer) scaled by a coefficient drawn from
`[1 - thickness, 1]`; the direction is the normalised vector from
`nominal_center` to the pre-scale vertex (`+Y` fallback on zero length) in
`Automatic` mode and the fixed vector unmodified in `Fixed` mode. -/
theorem emit_random_particle_spec (m : ConvexMesh) (l : List Vec3) (t : ℝ)
    (mode : EmitterDirectionMode) (rng : Rng)
    (hpos : m.mesh.positions = some (.float32x3 l)) (hne : l ≠ [])
    (ht0 : 0 ≤ t) (ht1 : t ≤ 1)
    (hu0 : 0 ≤ rng.realDraws.headD 0) (hu1 : rng.realDraws.headD 0 ≤ 1) :
    rng.natDraws.headD 0 % l.length < l.length ∧
    1 - t ≤ (1 - t) + rng.realDraws.headD 0 * (1 - (1 - t)) ∧
    (1 - t) + rng.realDraws.headD 0 * (1 - (1 - t)) ≤ 1 ∧
    m.emit_random_particle rng t mode =
      .ok ({ position := (l.getD (rng.natDraws.headD 0 % l.length) Vec3.zero).scale
               ((1 - t) + rng.realDraws.headD 0 * (1 - (1 - t))),
             direction :=
               match mode with
               | .automatic =>
                   (((l.getD (rng.natDraws.headD 0 % l.length) Vec3.zero).sub
                     m.nominal_center).tryNormalize).getD Vec3.yAxis
               | .fixed dir => dir },
           ⟨rng.natDraws.tail, rng.realDraws.tail⟩) := by
  have hlen : l.length ≠ 0 := fun h => hne (List.eq_nil_of_length_eq_zero h)
  have hcv : m.mesh.count_vertices = l.length := by
    unfold Mesh.count_vertices
    rw [hpos]
  refine ⟨Nat.mod_lt _ (Nat.pos_of_ne_zero hlen), by nlinarith, by nlinarith, ?_⟩
  unfold ConvexMesh.emit_random_particle
  rw [if_neg (fun h => hlen (hcv ▸ h))]
  rw [hpos]
  rfl

/-- Witness for C6: a two-vertex mesh with thickness `1/2`, index draw `3` and
range draw `1/2` emits vertex `(4, 5, 6)` scaled by `3/4`, with the fixed
direction passed through. -/
theorem emit_random_particle_spec_witness :
    3 % 2 < 2 ∧
    (1 : ℝ) - 1/2 ≤ (1 - 1/2) + (1/2) * (1 - (1 - 1/2)) ∧
    (1 : ℝ) - 1/2 + (1/2) * (1 - (1 - 1/2)) ≤ 1 ∧
    ConvexMesh.emit_random_particle ⟨⟨some (.float32x3 [⟨1, 2, 3⟩, ⟨4, 5, 6⟩])⟩, ⟨0, 0, 0⟩⟩
        ⟨[3], [1/2]⟩ (1/2) (.fixed ⟨7, 8, 9⟩)
      = .ok ({ position := (⟨4, 5, 6⟩ : Vec3).scale ((1 - 1/2) + (1/2) * (1 - (1 - 1/2))),
               direction := ⟨7, 8, 9⟩ }, ⟨[], []⟩) :=
  emit_random_particle_spec ⟨⟨some (.float32x3 [⟨1, 2, 3⟩, ⟨4, 5, 6⟩])⟩, ⟨0, 0, 0⟩⟩
    [⟨1, 2, 3⟩, ⟨4, 5, 6⟩] (1/2) (.fixed ⟨7, 8, 9⟩) ⟨[3], [1/2]⟩ rfl (by simp)
    (by norm_num) (by norm_num) (by norm_num) (by norm_num)

lemma applySpherizePass_congr (params₁ params₂ : EmitterDirectionParams)
    (h : params₁.spherize_direction = params₂.spherize_direction) (p : EmittedParticle) :
    applySpherizePass params₁ p = applySpherizePass params₂ p := by
  unfold applySpherizePass
  rw [h]

lemma applyRandomizePass_full_congr (params₁ params₂ : EmitterDirectionParams)
    (h₁ : params₁.randomize_direction = 1) (h₂ : params₂.randomize_direction = 1)
    (p q : EmittedParticle) (hpq : p.position = q.position) (rng : Rng) :
    applyRandomizePass params₁ p rng = applyRandomizePass params₂ q rng := by
  unfold applyRandomizePass
  rw [h₁, h₂]
  have hb : ∀ (R d : Vec3), (R.scale 1).add (d.scale (1 - 1)) = R := by
    intro R d
    cases R
    cases d
    simp [Vec3.scale, Vec3.add]
  simp only [hb]
  cases p
  cases q
  simp_all

lemma emit_random_particle_mode_indep (m : ConvexMesh) (rng : Rng) (t : ℝ)
    (mode₁ mode₂ : EmitterDirectionMode) :
    (∃ err, m.emit_random_particle rng t mode₁ = .error err ∧
            m.emit_random_particle rng t mode₂ = .error err) ∨
    (∃ P d₁ d₂ rng', m.emit_random_particle rng t mode₁ = .ok (⟨P, d₁⟩, rng') ∧
            m.emit_random_particle rng t mode₂ = .ok (⟨P, d₂⟩, rng')) := by
  unfold ConvexMesh.emit_random_particle
  split
  · exact Or.inr ⟨Vec3.zero, Vec3.yAxis, Vec3.yAxis, rng, rfl, rfl⟩
  · split
    · exact Or.inl ⟨.missingPositions, rfl, rfl⟩
    · exact Or.inl ⟨.badFormat, rfl, rfl⟩
    · exact Or.inr ⟨_, _, _, _, rfl, rfl⟩

/-- Claim C9: with `randomize_direction = 1`, two emitters identical except for
their base direction mode (`Automatic` versus any `Fixed(dir)`), run on the same
rng state, return the same particle (position and direction) and the same final
rng state — the base direction is fully ignored. -/
theorem emit_full_randomize_ignores_base (sh : Shape) (t s : ℝ)
    (m₁ m₂ : EmitterDirectionMode) (em : EmissionMode) (rng : Rng) :
    (EmitterShape.emit_particle ⟨sh, t, ⟨m₁, 1, s⟩, em⟩ rng).map (fun r => (r.1, r.2.2))
      = (EmitterShape.emit_particle ⟨sh, t, ⟨m₂, 1, s⟩, em⟩ rng).map
          (fun r => (r.1, r.2.2)) := by
  obtain ⟨cm⟩ := sh
  cases em with
  | spread sp =>
      simp [EmitterShape.emit_particle, EmitterShape.sampleParticle, Shape.spread_particle,
        ConvexMesh.spread_particle]
  | random =>
      simp only [EmitterShape.emit_particle, EmitterShape.sampleParticle,
        Shape.emit_random_particle]
      rcases emit_random_particle_mode_indep cm rng t m₁ m₂ with
        ⟨err, he₁, he₂⟩ | ⟨P, d₁, d₂, rng', ho₁, ho₂⟩
      · rw [he₁, he₂]
      · rw [ho₁, ho₂]
        simp only [Except.map]
        rw [applyRandomizePass_full_congr ⟨m₁, 1, s⟩ ⟨m₂, 1, s⟩ rfl rfl ⟨P, d₁⟩ ⟨P, d₂⟩ rfl rng',
          applySpherizePass_congr ⟨m₁, 1, s⟩ ⟨m₂, 1, s⟩ rfl]

end Particles
